import Mathlib

/-!
Formal model of the work-hours tracker's merge / persistence / calendar-layout
subsystem (`main.py`): the `ExcelCalendarGenerator` store operations
(`_load_existing_data`, `_convert_dataframe_to_work_data`, `_add_current_day_data`,
`_flatten_work_data`, `_create_workbook_with_calendars`, `_add_backup_data_sheet`)
and the `MonthlyCalendarFormatter` helpers (`_parse_time_string`,
`_format_timedelta`, `_calculate_monthly_totals`, `_fill_calendar_days`,
`_add_day_cell`, `_add_monthly_totals`).

Modelling conventions:
* Python `str` values that the code parses or builds are modelled as `List Char`.
* Python `dict` (insertion ordered) is modelled as an association list; the
  statement `m[k] = v` replaces the value in place when `k` is present and
  appends `(k, v)` otherwise (`dictInsert`); `m[k]` / `k in m` is `dictFind`.
* Dates are modelled structurally as year/month/day triples.  In the program a
  date key is the canonical `YYYY-MM-DD` string obtained from
  `datetime.strftime`, and the month key is its `YYYY-MM` prefix; structurally
  the month key is the (year, month) pair.
* `timedelta` values are modelled by their total number of seconds as an `Int`
  (every duration the program builds is a whole number of minutes).
-/

/-- The characters of a string, used to write `List Char` constants. -/
def chars (s : String) : List Char := s.toList

/-- Model of the Python dict assignment `m[k] = v` on an insertion-ordered
association list: if the key is present its value is replaced in place,
otherwise the pair is appended at the end. -/
def dictInsert {κ α : Type} [DecidableEq κ] : List (κ × α) → κ → α → List (κ × α)
  | [], k, v => [(k, v)]
  | (k', v') :: rest, k, v =>
    if k' = k then (k', v) :: rest else (k', v') :: dictInsert rest k v

/-- Model of the Python dict lookup `m[k]` (and of the `k in m` test via
`Option.isSome`). -/
def dictFind {κ α : Type} [DecidableEq κ] : List (κ × α) → κ → Option α
  | [], _ => none
  | (k', v) :: rest, k => if k' = k then some v else dictFind rest k

/-- A calendar date, the structural form of a `YYYY-MM-DD` key string. -/
structure Date where
  year : Nat
  month : Nat
  day : Nat
deriving DecidableEq, Repr

/-- One day's record as stored in the work-data dictionary:
`{'worked_hours': ..., 'extra_hours': ...}` (both formatted `HH:MM` text). -/
structure DayHours where
  worked_hours : List Char
  extra_hours : List Char
deriving DecidableEq, Repr

/-- A month key: the structural form of the `YYYY-MM` string `%Y-%m`. -/
abbrev MonthKey := Nat × Nat

/-- The per-month inner dictionary `date -> {worked, extra}`. -/
abbrev MonthData := List (Date × DayHours)

/-- The store: `month-key -> date -> {worked, extra}`
(`Dict[str, Dict[str, Dict[str, str]]]` in the source). -/
abbrev WorkData := List (MonthKey × MonthData)

/-- One row of the flat `Data` table: (date, hours-worked text, extra text). -/
abbrev DataRow := Date × List Char × List Char

/-- `date_object.strftime("%Y-%m")`: the month key of a date. -/
def monthKeyOf (d : Date) : MonthKey := (d.year, d.month)

/-- `_add_current_day_data`: ensure the month bucket exists, then overwrite
`work_data[month_year][date]` with the given worked/extra pair. -/
def addCurrentDayData (work_data : WorkData) (date : Date)
    (worked_hours extra_hours : List Char) : WorkData :=
  let month_year := monthKeyOf date
  let bucket := (dictFind work_data month_year).getD []
  dictInsert work_data month_year
    (dictInsert bucket date ⟨worked_hours, extra_hours⟩)

/-- `_convert_dataframe_to_work_data`: file every row of the flat table into
`work_data[month_year][date_string] = {'worked_hours': ..., 'extra_hours': ...}`,
starting from the empty dictionary.  (`_parse_date_from_row` normalises the
row's date, here already structural.) -/
def convertDataframeToWorkData (rows : List DataRow) : WorkData :=
  rows.foldl
    (fun work_data row =>
      let month_year := monthKeyOf row.1
      let bucket := (dictFind work_data month_year).getD []
      dictInsert work_data month_year
        (dictInsert bucket row.1 ⟨row.2.1, row.2.2⟩))
    []

/-- `_flatten_work_data`: iterate the month buckets in store order and the
dates within each bucket in bucket order, emitting `[date, worked, extra]`. -/
def flattenWorkData (work_data : WorkData) : List DataRow :=
  work_data.flatMap
    (fun p => p.2.map (fun q => (q.1, q.2.worked_hours, q.2.extra_hours)))

/-- The observable state of a prior save file, as `_load_existing_data` probes
it.  `fileExists` models `os.path.exists`; `dataSheet` is `some rows` when
reading the `Data` sheet and converting it succeeds (the whole `try` body),
`none` when any step of it raises; `legacySheet` likewise for the legacy
whole-file read. -/
structure ExcelFile where
  fileExists : Bool
  dataSheet : Option (List DataRow)
  legacySheet : Option (List DataRow)

/-- `_load_existing_data`: missing file gives the empty store; otherwise try
the `Data` sheet, then the legacy layout, and absorb both failures into the
empty store. -/
def loadExistingData (f : ExcelFile) : WorkData :=
  if f.fileExists = false then []
  else
    match f.dataSheet with
    | some rows => convertDataframeToWorkData rows
    | none =>
      match f.legacySheet with
      | some rows => convertDataframeToWorkData rows
      | none => []

/-! ### Duration codec (`_format_timedelta` / `_parse_time_string`) -/

/-- The decimal digit character for `d` (`0 ≤ d ≤ 9`). -/
def digitChar (d : Nat) : Char := Char.ofNat (48 + d)

/-- Fuel-indexed decimal rendering; the fuel only bounds the recursion depth. -/
def natToDigitsAux : Nat → Nat → List Char
  | 0, _ => []
  | fuel + 1, n =>
    if n < 10 then [digitChar n]
    else natToDigitsAux fuel (n / 10) ++ [digitChar (n % 10)]

/-- The decimal digits of `n`, most significant first (Python's `str(n)`). -/
def natToDigits (n : Nat) : List Char := natToDigitsAux (n + 1) n

/-- Python's `f"{k:02d}"`: pad to width 2 with zeros, the sign counted in the
width (so `-1` renders as `-1`, never `-01`). -/
def padInt2 (k : Int) : List Char :=
  if k < 0 then '-' :: natToDigits (-k).toNat
  else if k < 10 then '0' :: natToDigits k.toNat
  else natToDigits k.toNat

/-- `_format_timedelta`: `total_seconds // 3600` and `(total_seconds % 3600) // 60`
with Python's floor division and floor modulo, each through `f"{...:02d}"`,
joined by a colon. -/
def formatTimedelta (time_delta : Int) : List Char :=
  let total_seconds := time_delta
  let hours := Int.fdiv total_seconds 3600
  let minutes := Int.fdiv (Int.fmod total_seconds 3600) 60
  padInt2 hours ++ ':' :: padInt2 minutes

/-- Python's `s.split(sep)` for a single-character separator. -/
def splitOnChar (sep : Char) : List Char → List (List Char)
  | [] => [[]]
  | c :: rest =>
    match splitOnChar sep rest with
    | [] => [[]]
    | cur :: parts => if c = sep then [] :: cur :: parts else (c :: cur) :: parts

/-- Whether `c` is a decimal digit. -/
def isDigitChar (c : Char) : Bool := 48 ≤ c.toNat && c.toNat ≤ 57

/-- The number denoted by a list of decimal digits (leading zeros allowed). -/
def digitsToNat (l : List Char) : Nat := l.foldl (fun a c => a * 10 + (c.toNat - 48)) 0

/-- Helper for `pyInt`: all-digit nonempty strings. -/
def pyIntDigits (l : List Char) : Option Int :=
  if l ≠ [] ∧ l.all isDigitChar then some (digitsToNat l) else none

/-- Model of Python's `int(str)` on the strings this program feeds it: an
optional single sign followed by one or more decimal digits (so `int("-00")`
is `0`); anything else fails.  (Python's extra tolerance for surrounding
whitespace and digit-group underscores is not modelled.) -/
def pyInt (s : List Char) : Option Int :=
  match s with
  | [] => none
  | c :: rest =>
    if c = '-' then (pyIntDigits rest).map (fun n => -n)
    else if c = '+' then pyIntDigits rest
    else pyIntDigits (c :: rest)

/-- `_parse_time_string`: split on `':'`, require exactly two integer fields,
return `timedelta(hours=h, minutes=m)` as seconds; any failure yields the zero
duration (`timedelta()`). -/
def parseTimeString (time_string : List Char) : Int :=
  match splitOnChar ':' time_string with
  | [hs, ms] =>
    match pyInt hs, pyInt ms with
    | some hours, some minutes => hours * 3600 + minutes * 60
    | _, _ => 0
  | _ => 0

/-- `_calculate_monthly_totals`: sum the parsed worked and extra durations of
every record of the month. -/
def calculateMonthlyTotals (month_data : MonthData) : Int × Int :=
  month_data.foldl
    (fun acc day_data =>
      (acc.1 + parseTimeString day_data.2.worked_hours,
       acc.2 + parseTimeString day_data.2.extra_hours))
    (0, 0)

/-! ### Calendar layout (`calendar.monthcalendar` and the formatter's writes) -/

/-- Gregorian leap year, as in Python's `calendar.isleap`. -/
def isLeapYear (y : Nat) : Bool := (y % 4 == 0 && y % 100 != 0) || y % 400 == 0

/-- Days in a month of the proleptic Gregorian calendar
(`calendar.monthrange`'s day count). -/
def daysInMonth (y m : Nat) : Nat :=
  if m = 2 then (if isLeapYear y then 29 else 28)
  else if m = 4 ∨ m = 6 ∨ m = 9 ∨ m = 11 then 30 else 31

/-- Days in the months of year `y` strictly before month `m`. -/
def daysBeforeMonth (y m : Nat) : Nat :=
  ((List.range (m - 1)).map (fun i => daysInMonth y (i + 1))).sum

/-- Days in all years strictly before year `y` (proleptic Gregorian). -/
def daysBeforeYear (y : Nat) : Nat :=
  365 * (y - 1) + (y - 1) / 4 - (y - 1) / 100 + (y - 1) / 400

/-- `datetime.date(y, m, d).toordinal()`: day number with 0001-01-01 as 1. -/
def dateOrdinal (y m d : Nat) : Nat := daysBeforeYear y + daysBeforeMonth y m + d

/-- `datetime.date(y, m, d).weekday()`: Monday is 0 (0001-01-01 is a Monday). -/
def weekdayMonday0 (y m d : Nat) : Nat := (dateOrdinal y m d + 6) % 7

/-- The flat cell list behind `calendar.monthcalendar`: leading zeros up to the
first weekday, the day numbers, trailing zeros to a multiple of 7. -/
def monthCells (y m : Nat) : List Nat :=
  let w0 := weekdayMonday0 y m 1
  let n := daysInMonth y m
  let pad := (7 - (w0 + n) % 7) % 7
  List.replicate w0 0 ++ (List.range n).map (· + 1) ++ List.replicate pad 0

/-- Fuel-indexed chunking of a cell list into rows of 7. -/
def chunkWeeksAux : Nat → List Nat → List (List Nat)
  | 0, _ => []
  | _ + 1, [] => []
  | fuel + 1, c :: rest => (c :: rest).take 7 :: chunkWeeksAux fuel ((c :: rest).drop 7)

/-- `calendar.monthcalendar(y, m)`: the month's weeks, each a 7-slot
Monday-first row with 0 for days of the adjacent months. -/
def monthcalendarWeeks (y m : Nat) : List (List Nat) :=
  chunkWeeksAux (monthCells y m).length (monthCells y m)

/-- The (row, column) targets of the value writes `_fill_calendar_days` /
`_add_day_cell` / `_add_work_hours_to_cell` perform, in program order: for
each week `w` (0-based) and occupied slot `i`, the day number at
`(4 + w, i + 1)`; when the date has a record, the worked sub-line one row
below; and when its extra text differs from `"00:00"`, the extra sub-line two
rows below. -/
def dayCellWrites (y m : Nat) (month_data : MonthData) : List (Nat × Nat) :=
  (monthcalendarWeeks y m).enum.flatMap (fun wk =>
    wk.2.enum.flatMap (fun di =>
      if di.2 = 0 then []
      else
        let row := 4 + wk.1
        let column := di.1 + 1
        (row, column) ::
          (match dictFind month_data ⟨y, m, di.2⟩ with
           | none => []
           | some day_data =>
             (row + 1, column) ::
               (if day_data.extra_hours ≠ chars ("00:00") then [(row + 2, column)]
                else []))))

/-- The (row, column) targets of `_add_monthly_totals`' value writes: label in
column A, worked cell in column C, extra cell in column E, all on
`total_row = 4 + len(calendar.monthcalendar(y, m)) + 1`. -/
def totalsRowWrites (y m : Nat) : List (Nat × Nat) :=
  let total_row := 4 + (monthcalendarWeeks y m).length + 1
  [(total_row, 1), (total_row, 3), (total_row, 5)]

/-- Every value-write target of `create_monthly_calendar` for one month sheet:
the title at A1, the weekday header row 3 columns 1-7, the day cells, and the
totals row. -/
def calendarValueWrites (y m : Nat) (month_data : MonthData) : List (Nat × Nat) :=
  (1, 1) :: ((List.range 7).map (fun i => (3, i + 1)))
    ++ dayCellWrites y m month_data ++ totalsRowWrites y m

/-! ### Document assembly (`_create_workbook_with_calendars`) -/

/-- `calendar.month_name[m]`. -/
def monthName : Nat → String
  | 1 => "January"
  | 2 => "February"
  | 3 => "March"
  | 4 => "April"
  | 5 => "May"
  | 6 => "June"
  | 7 => "July"
  | 8 => "August"
  | 9 => "September"
  | 10 => "October"
  | 11 => "November"
  | 12 => "December"
  | _ => ""

/-- `f"{calendar.month_name[month]} {year}"`: a month sheet's title. -/
def sheetName (mk : MonthKey) : String :=
  monthName mk.2 ++ " " ++ toString mk.1

/-- Ascending order on month keys; `sorted()` on the `YYYY-MM` key strings is
this lexicographic year-then-month order (years rendered four-digit). -/
def monthKeyLe (a b : MonthKey) : Bool :=
  decide (a.1 < b.1 ∨ (a.1 = b.1 ∧ a.2 ≤ b.2))

/-- `sorted(work_data.keys())`. -/
def sortedMonthKeys (work_data : WorkData) : List MonthKey :=
  (work_data.map Prod.fst).mergeSort monthKeyLe

/-- The month-sheet titles `_create_workbook_with_calendars` creates, in
creation order (the default blank sheet having been removed first). -/
def createWorkbookSheetNames (work_data : WorkData) : List String :=
  (sortedMonthKeys work_data).map sheetName

/-- The full sheet-name sequence of the assembled document: the month sheets,
then the `Data` backup sheet appended by `_add_backup_data_sheet`. -/
def assembleSheetNames (work_data : WorkData) : List String :=
  createWorkbookSheetNames work_data ++ ["Data"]

/-! ### Derived observers and invariants used by the statements -/

/-- The record the store holds for date `d`: look up `d`'s month bucket, then
`d` within it (the composite of the two dict lookups the code performs). -/
def lookupDate (work_data : WorkData) (d : Date) : Option DayHours :=
  (dictFind work_data (monthKeyOf d)).bind (fun md => dictFind md d)

/-- Well-formedness every store built by this program enjoys: month keys are
distinct, date keys within a bucket are distinct, and every date is filed
under its own month key. -/
def storeWF (work_data : WorkData) : Prop :=
  (work_data.map Prod.fst).Nodup ∧
  (∀ p ∈ work_data, (p.2.map Prod.fst).Nodup) ∧
  (∀ p ∈ work_data, ∀ q ∈ p.2, monthKeyOf q.1 = p.1)

/-- A date that `datetime.strptime(..., "%Y-%m-%d")` would accept: a real
proleptic-Gregorian calendar date (year at least `datetime.MINYEAR`). -/
abbrev validDate (d : Date) : Prop :=
  1 ≤ d.year ∧ 1 ≤ d.month ∧ d.month ≤ 12 ∧ 1 ≤ d.day ∧ d.day ≤ daysInMonth d.year d.month

/-- The invariant claimed of every loaded or merged store: each date key is a
valid calendar date and lies in the month of the bucket it is filed under. -/
def storeEntriesOK (work_data : WorkData) : Prop :=
  ∀ p ∈ work_data, ∀ q ∈ p.2, validDate q.1 ∧ monthKeyOf q.1 = p.1

/-- Zero-padding of a nonnegative number to at least two digits, as the
specification's "zero-padded to 2 digits" reads. -/
def twoPadNat (n : Nat) : List Char :=
  if n < 10 then '0' :: natToDigits n else natToDigits n

/-- The output format the specification describes for a (nonnegative)
duration, written from the spec's words, not from the code: HH is the total
whole hours truncated toward zero from the total seconds, MM the remainder
minutes, both zero-padded to 2 digits. -/
def claimFormatNonneg (total_seconds : Nat) : List Char :=
  twoPadNat (total_seconds / 3600) ++ ':' :: twoPadNat (total_seconds % 3600 / 60)

/-! ### Dictionary lemmas -/

theorem dictFind_dictInsert_self {κ α : Type} [DecidableEq κ]
    (m : List (κ × α)) (k : κ) (v : α) : dictFind (dictInsert m k v) k = some v := by
  induction m with
  | nil => simp [dictInsert, dictFind]
  | cons p rest ih =>
    rcases p with ⟨k', v'⟩
    by_cases h : k' = k
    · subst h; simp [dictInsert, dictFind]
    · simp [dictInsert, dictFind, h, ih]

theorem dictFind_dictInsert_ne {κ α : Type} [DecidableEq κ]
    (m : List (κ × α)) (k k' : κ) (v : α) (hne : k' ≠ k) :
    dictFind (dictInsert m k v) k' = dictFind m k' := by
  induction m with
  | nil => simp [dictInsert, dictFind, Ne.symm hne]
  | cons p rest ih =>
    rcases p with ⟨k₀, v₀⟩
    by_cases h : k₀ = k
    · subst h
      simp [dictInsert, dictFind, Ne.symm hne]
    · simp only [dictInsert, if_neg h]
      by_cases h' : k₀ = k'
      · subst h'; simp [dictFind]
      · simp [dictFind, h', ih]

theorem dictInsert_dictInsert_self {κ α : Type} [DecidableEq κ]
    (m : List (κ × α)) (k : κ) (v : α) :
    dictInsert (dictInsert m k v) k v = dictInsert m k v := by
  induction m with
  | nil => simp [dictInsert]
  | cons p rest ih =>
    rcases p with ⟨k', v'⟩
    by_cases h : k' = k
    · subst h; simp [dictInsert]
    · simp [dictInsert, h, ih]

theorem mem_dictInsert {κ α : Type} [DecidableEq κ]
    {m : List (κ × α)} {k : κ} {v : α} {p : κ × α} (hp : p ∈ dictInsert m k v) :
    p = (k, v) ∨ p ∈ m := by
  induction m with
  | nil => simpa [dictInsert] using hp
  | cons q rest ih =>
    rcases q with ⟨k', v'⟩
    by_cases h : k' = k
    · subst h
      rcases (by simpa [dictInsert] using hp : p = (k', v) ∨ p ∈ rest) with h1 | h1
      · exact Or.inl h1
      · exact Or.inr (List.mem_cons_of_mem _ h1)
    · rcases (by simpa [dictInsert, h] using hp : p = (k', v') ∨ p ∈ dictInsert rest k v)
        with h1 | h1
      · exact Or.inr (by simp [h1])
      · rcases ih h1 with h2 | h2
        · exact Or.inl h2
        · exact Or.inr (List.mem_cons_of_mem _ h2)

theorem dictFind_mem {κ α : Type} [DecidableEq κ]
    {m : List (κ × α)} {k : κ} {v : α} (h : dictFind m k = some v) : (k, v) ∈ m := by
  induction m with
  | nil => simp [dictFind] at h
  | cons p rest ih =>
    rcases p with ⟨k', v'⟩
    by_cases hk : k' = k
    · subst hk
      simp only [dictFind, if_true, eq_self_iff_true, Option.some.injEq] at h
      subst h
      exact List.mem_cons_self _ _
    · simp only [dictFind, if_neg hk] at h
      exact List.mem_cons_of_mem _ (ih h)

theorem dictFind_eq_none_of_not_mem {κ α : Type} [DecidableEq κ]
    {m : List (κ × α)} {k : κ} (h : k ∉ m.map Prod.fst) : dictFind m k = none := by
  induction m with
  | nil => rfl
  | cons p rest ih =>
    rcases p with ⟨k', v'⟩
    simp only [List.map_cons, List.mem_cons] at h
    push_neg at h
    simp [dictFind, Ne.symm h.1, ih h.2]

theorem mem_keys_dictInsert {κ α : Type} [DecidableEq κ]
    {m : List (κ × α)} {k a : κ} {v : α}
    (ha : a ∈ (dictInsert m k v).map Prod.fst) : a ∈ m.map Prod.fst ∨ a = k := by
  rcases List.mem_map.1 ha with ⟨p, hp, hpa⟩
  rcases mem_dictInsert hp with h | h
  · subst h; right; exact hpa.symm ▸ rfl
  · left; exact hpa ▸ List.mem_map_of_mem _ h

theorem nodup_keys_dictInsert {κ α : Type} [DecidableEq κ]
    {m : List (κ × α)} (k : κ) (v : α) (h : (m.map Prod.fst).Nodup) :
    ((dictInsert m k v).map Prod.fst).Nodup := by
  induction m with
  | nil => simp [dictInsert]
  | cons p rest ih =>
    rcases p with ⟨k', v'⟩
    simp only [List.map_cons, List.nodup_cons] at h
    by_cases hk : k' = k
    · subst hk; simpa [dictInsert] using h
    · simp only [dictInsert, if_neg hk, List.map_cons, List.nodup_cons]
      refine ⟨fun hmem => ?_, ih h.2⟩
      rcases mem_keys_dictInsert hmem with hh | hh
      · exact h.1 hh
      · exact hk hh

/-! ### Store observers and invariants -/

theorem lookupDate_add_self (wd : WorkData) (d : Date) (w e : List Char) :
    lookupDate (addCurrentDayData wd d w e) d = some ⟨w, e⟩ := by
  unfold lookupDate addCurrentDayData
  rw [dictFind_dictInsert_self]
  simp [dictFind_dictInsert_self]

theorem dictFind_add_ne_month (wd : WorkData) (d : Date) (w e : List Char)
    (mk : MonthKey) (h : mk ≠ monthKeyOf d) :
    dictFind (addCurrentDayData wd d w e) mk = dictFind wd mk := by
  unfold addCurrentDayData
  exact dictFind_dictInsert_ne _ _ _ _ h

theorem lookupDate_add_ne (wd : WorkData) (d d' : Date) (w e : List Char)
    (h : d' ≠ d) : lookupDate (addCurrentDayData wd d w e) d' = lookupDate wd d' := by
  by_cases hmk : monthKeyOf d' = monthKeyOf d
  · unfold lookupDate addCurrentDayData
    rw [hmk, dictFind_dictInsert_self]
    rcases hfind : dictFind wd (monthKeyOf d) with _ | md
    · simp [Option.bind, dictFind_dictInsert_ne _ _ _ _ h, dictFind, Ne.symm h]
    · simp [Option.bind, dictFind_dictInsert_ne _ _ _ _ h, Ne.symm h]
  · unfold lookupDate
    rw [dictFind_add_ne_month _ _ _ _ _ hmk]

theorem add_idempotent (wd : WorkData) (d : Date) (w e : List Char) :
    addCurrentDayData (addCurrentDayData wd d w e) d w e
      = addCurrentDayData wd d w e := by
  simp only [addCurrentDayData, dictFind_dictInsert_self, Option.getD_some,
    dictInsert_dictInsert_self]

theorem storeWF_add {wd : WorkData} (hwf : storeWF wd) (d : Date) (w e : List Char) :
    storeWF (addCurrentDayData wd d w e) := by
  rcases hwf with ⟨hkeys, hbkeys, hfiled⟩
  unfold addCurrentDayData
  refine ⟨nodup_keys_dictInsert _ _ hkeys, ?_, ?_⟩
  · intro p hp
    rcases mem_dictInsert hp with hh | hh
    · subst hh
      rcases hfind : dictFind wd (monthKeyOf d) with _ | md
      · simp [hfind, dictInsert]
      · simp only [hfind, Option.getD_some]
        exact nodup_keys_dictInsert _ _ (hbkeys _ (dictFind_mem hfind))
    · exact hbkeys _ hh
  · intro p hp q hq
    rcases mem_dictInsert hp with hh | hh
    · subst hh
      simp only at hq
      rcases mem_dictInsert hq with hq' | hq'
      · subst hq'; rfl
      · rcases hfind : dictFind wd (monthKeyOf d) with _ | md
        · rw [hfind] at hq'; simp at hq'
        · rw [hfind] at hq'
          exact hfiled _ (dictFind_mem hfind) _ hq'
    · exact hfiled _ hh _ hq

theorem convert_eq_foldl (rows : List DataRow) :
    convertDataframeToWorkData rows
      = rows.foldl (fun wd r => addCurrentDayData wd r.1 r.2.1 r.2.2) [] := rfl

theorem storeWF_nil : storeWF [] := by
  refine ⟨List.nodup_nil, ?_, ?_⟩ <;> intro p hp <;> simp at hp

theorem storeWF_foldl (l : List DataRow) :
    ∀ wd : WorkData, storeWF wd →
      storeWF (l.foldl (fun wd r => addCurrentDayData wd r.1 r.2.1 r.2.2) wd) := by
  induction l with
  | nil => intro wd h; exact h
  | cons r l ih =>
    intro wd h
    exact ih _ (storeWF_add h _ _ _)

theorem storeWF_convert (rows : List DataRow) :
    storeWF (convertDataframeToWorkData rows) := by
  rw [convert_eq_foldl]
  exact storeWF_foldl rows [] storeWF_nil

theorem storeWF_load (f : ExcelFile) : storeWF (loadExistingData f) := by
  unfold loadExistingData
  by_cases h : f.fileExists = false
  · simp [h, storeWF_nil]
  · rcases f.dataSheet with _ | rows
    · rcases f.legacySheet with _ | rows
      · simp [h, storeWF_nil]
      · simp [h, storeWF_convert]
    · simp [h, storeWF_convert]

/-! ### Flattening: each date appears once, in its month bucket -/

theorem flattenWorkData_cons (p : MonthKey × MonthData) (wd : WorkData) :
    flattenWorkData (p :: wd)
      = p.2.map (fun q => (q.1, q.2.worked_hours, q.2.extra_hours))
          ++ flattenWorkData wd := by
  simp [flattenWorkData]

theorem filter_bucket_of_not_mem {md : MonthData} {d : Date}
    (h : d ∉ md.map Prod.fst) :
    (md.map (fun q => (q.1, q.2.worked_hours, q.2.extra_hours))).filter
        (fun r => decide (r.1 = d)) = [] := by
  rw [List.filter_eq_nil_iff]
  intro r hr
  rcases List.mem_map.1 hr with ⟨q, hq, rfl⟩
  simp only [decide_eq_true_eq]
  intro he
  exact h (he ▸ List.mem_map_of_mem Prod.fst hq)

theorem filter_bucket_rows {md : MonthData} {d : Date}
    (hnd : (md.map Prod.fst).Nodup) :
    (md.map (fun q => (q.1, q.2.worked_hours, q.2.extra_hours))).filter
        (fun r => decide (r.1 = d))
      = (match dictFind md d with
         | some h => [(d, h.worked_hours, h.extra_hours)]
         | none => []) := by
  induction md with
  | nil => rfl
  | cons q rest ih =>
    rcases q with ⟨d', h'⟩
    simp only [List.map_cons, List.nodup_cons] at hnd
    by_cases hd : d' = d
    · subst hd
      rw [List.map_cons, List.filter_cons_of_pos (by simp)]
      have hrest := @filter_bucket_of_not_mem rest d' hnd.1
      rw [hrest]
      simp [dictFind]
    · rw [List.map_cons, List.filter_cons_of_neg (by simp [hd])]
      rw [ih hnd.2]
      simp [dictFind, hd]

theorem flatten_filter_of_month_not_mem {wd : WorkData} {d : Date}
    (hfiled : ∀ p ∈ wd, ∀ q ∈ p.2, monthKeyOf q.1 = p.1)
    (h : monthKeyOf d ∉ wd.map Prod.fst) :
    (flattenWorkData wd).filter (fun r => decide (r.1 = d)) = [] := by
  rw [List.filter_eq_nil_iff]
  intro r hr
  simp only [flattenWorkData, List.mem_flatMap, List.mem_map] at hr
  rcases hr with ⟨p, hp, q, hq, rfl⟩
  simp only [decide_eq_true_eq]
  intro he
  apply h
  have hk : monthKeyOf d = p.1 := by rw [← he]; exact hfiled p hp q hq
  exact hk ▸ List.mem_map_of_mem Prod.fst hp

theorem flatten_filter {wd : WorkData} (hwf : storeWF wd) (d : Date) :
    (flattenWorkData wd).filter (fun r => decide (r.1 = d))
      = (match lookupDate wd d with
         | some h => [(d, h.worked_hours, h.extra_hours)]
         | none => []) := by
  induction wd with
  | nil => rfl
  | cons p rest ih =>
    rcases p with ⟨mk, md⟩
    rcases hwf with ⟨hkeys, hbkeys, hfiled⟩
    simp only [List.map_cons, List.nodup_cons] at hkeys
    have hwfrest : storeWF rest :=
      ⟨hkeys.2, fun p hp => hbkeys p (List.mem_cons_of_mem _ hp),
        fun p hp => hfiled p (List.mem_cons_of_mem _ hp)⟩
    rw [flattenWorkData_cons, List.filter_append]
    by_cases hmk : mk = monthKeyOf d
    · have h1 : lookupDate ((mk, md) :: rest) d = dictFind md d := by
        unfold lookupDate
        simp [dictFind, hmk]
      rw [h1]
      have h2 := @filter_bucket_rows md d (hbkeys _ (List.mem_cons_self _ _))
      rw [h2, flatten_filter_of_month_not_mem
        (fun p hp => hfiled p (List.mem_cons_of_mem _ hp)) (hmk ▸ hkeys.1)]
      cases hfind : dictFind md d <;> simp
    · have h1 : lookupDate ((mk, md) :: rest) d = lookupDate rest d := by
        unfold lookupDate
        simp [dictFind, hmk]
      rw [h1]
      have hdm : d ∉ md.map Prod.fst := by
        intro hmem
        rcases List.mem_map.1 hmem with ⟨q, hq, hq1⟩
        have hf2 : monthKeyOf q.1 = mk := hfiled (mk, md) (List.mem_cons_self _ _) q hq
        exact hmk (by rw [← hf2, hq1])
      rw [filter_bucket_of_not_mem hdm, ih hwfrest]
      rfl

/-! ### Lookup after re-loading a flat table -/

theorem find?_eq_head_filter {α : Type} (p : α → Bool) (l : List α) :
    l.find? p = (l.filter p).head? := by
  induction l with
  | nil => rfl
  | cons a l ih =>
    by_cases h : p a = true
    · rw [List.find?_cons_of_pos _ h, List.filter_cons_of_pos h]
      rfl
    · rw [List.find?_cons_of_neg _ h, List.filter_cons_of_neg h, ih]

theorem lookupDate_foldl (d : Date) (l : List DataRow) :
    ∀ wd : WorkData,
      lookupDate (l.foldl (fun wd r => addCurrentDayData wd r.1 r.2.1 r.2.2) wd) d
        = (match l.reverse.find? (fun r => decide (r.1 = d)) with
           | some r => some ⟨r.2.1, r.2.2⟩
           | none => lookupDate wd d) := by
  induction l with
  | nil => intro wd; rfl
  | cons r l ih =>
    intro wd
    rw [List.foldl_cons, ih, List.reverse_cons, List.find?_append]
    cases hf : l.reverse.find? (fun r => decide (r.1 = d)) with
    | some r' => rfl
    | none =>
      rw [Option.none_or]
      by_cases hr : r.1 = d
      · rw [List.find?_singleton, if_pos (by simp [hr])]
        rw [← hr]
        exact lookupDate_add_self wd r.1 r.2.1 r.2.2
      · rw [List.find?_singleton, if_neg (by simp [hr])]
        exact lookupDate_add_ne wd r.1 d r.2.1 r.2.2 (Ne.symm hr)

theorem reverse_find_of_filter_singleton {l : List DataRow} {d : Date}
    {w e : List Char} (h : l.filter (fun r => decide (r.1 = d)) = [(d, w, e)]) :
    l.reverse.find? (fun r => decide (r.1 = d)) = some (d, w, e) := by
  rw [find?_eq_head_filter, List.filter_reverse, h]
  rfl

/-! ### Decimal rendering and parsing lemmas -/

theorem digitChar_toNat {d : Nat} (h : d < 10) : (digitChar d).toNat = 48 + d := by
  interval_cases d <;> rfl

theorem isDigitChar_digitChar {d : Nat} (h : d < 10) : isDigitChar (digitChar d) = true := by
  interval_cases d <;> rfl

theorem natToDigitsAux_spec :
    ∀ fuel n, n < fuel →
      (natToDigitsAux fuel n).all isDigitChar = true ∧
      natToDigitsAux fuel n ≠ [] ∧
      digitsToNat (natToDigitsAux fuel n) = n := by
  intro fuel
  induction fuel with
  | zero => intro n h; omega
  | succ fuel ih =>
    intro n h
    by_cases h10 : n < 10
    · rw [natToDigitsAux, if_pos h10]
      refine ⟨?_, ?_, ?_⟩
      · simp [List.all_cons, isDigitChar_digitChar h10]
      · simp
      · simp [digitsToNat, digitChar_toNat h10]
    · rw [natToDigitsAux, if_neg h10]
      have hlt : n / 10 < n := Nat.div_lt_self (by omega) (by omega)
      have hrec : n / 10 < fuel := by omega
      obtain ⟨ha, hne, hval⟩ := ih (n / 10) hrec
      refine ⟨?_, ?_, ?_⟩
      · rw [List.all_append, ha]
        simp [List.all_cons, isDigitChar_digitChar (Nat.mod_lt n (by omega))]
      · simp
      · have hfold : digitsToNat (natToDigitsAux fuel (n / 10) ++ [digitChar (n % 10)])
            = digitsToNat (natToDigitsAux fuel (n / 10)) * 10
                + ((digitChar (n % 10)).toNat - 48) := by
          simp [digitsToNat, List.foldl_append]
        rw [hfold, hval, digitChar_toNat (Nat.mod_lt n (by omega))]
        omega

theorem natToDigits_spec (n : Nat) :
    (natToDigits n).all isDigitChar = true ∧
    natToDigits n ≠ [] ∧
    digitsToNat (natToDigits n) = n :=
  natToDigitsAux_spec (n + 1) n (Nat.lt_succ_self n)

theorem not_mem_of_all_digits {c : Char} {l : List Char}
    (hall : l.all isDigitChar = true) (hc : isDigitChar c = false) : c ∉ l := by
  intro hmem
  have h2 := List.all_eq_true.1 hall c hmem
  rw [hc] at h2
  exact Bool.noConfusion h2

theorem colon_not_mem_natToDigits (n : Nat) : ':' ∉ natToDigits n :=
  not_mem_of_all_digits (natToDigits_spec n).1 (by decide)

theorem colon_not_mem_padInt2 (k : Int) : ':' ∉ padInt2 k := by
  unfold padInt2
  by_cases h : k < 0
  · rw [if_pos h]
    intro hmem
    rcases List.mem_cons.1 hmem with h1 | h1
    · exact absurd h1 (by decide)
    · exact colon_not_mem_natToDigits _ h1
  · rw [if_neg h]
    by_cases h2 : k < 10
    · rw [if_pos h2]
      intro hmem
      rcases List.mem_cons.1 hmem with h1 | h1
      · exact absurd h1 (by decide)
      · exact colon_not_mem_natToDigits _ h1
    · rw [if_neg h2]
      exact colon_not_mem_natToDigits _

theorem colon_not_mem_twoPadNat (n : Nat) : ':' ∉ twoPadNat n := by
  unfold twoPadNat
  by_cases h : n < 10
  · rw [if_pos h]
    intro hmem
    rcases List.mem_cons.1 hmem with h1 | h1
    · exact absurd h1 (by decide)
    · exact colon_not_mem_natToDigits _ h1
  · rw [if_neg h]
    exact colon_not_mem_natToDigits _

/-! ### Splitting lemmas -/

theorem splitOnChar_ne_nil (sep : Char) (l : List Char) : splitOnChar sep l ≠ [] := by
  induction l with
  | nil => simp [splitOnChar]
  | cons c rest ih =>
    simp only [splitOnChar]
    cases hsp : splitOnChar sep rest with
    | nil => exact absurd hsp ih
    | cons cur parts => by_cases h : c = sep <;> simp [h]

theorem splitOnChar_not_mem {sep : Char} {l : List Char} (h : sep ∉ l) :
    splitOnChar sep l = [l] := by
  induction l with
  | nil => rfl
  | cons c rest ih =>
    have hc : ¬ c = sep := fun hh => h (by rw [hh]; exact List.mem_cons_self _ _)
    have hrest : sep ∉ rest := fun hm => h (List.mem_cons_of_mem _ hm)
    simp only [splitOnChar]
    rw [ih hrest]
    simp [hc]

theorem splitOnChar_append {sep : Char} {a : List Char} (b : List Char) (h : sep ∉ a) :
    splitOnChar sep (a ++ sep :: b) = a :: splitOnChar sep b := by
  induction a with
  | nil =>
    simp only [List.nil_append, splitOnChar]
    cases hsp : splitOnChar sep b with
    | nil => exact absurd hsp (splitOnChar_ne_nil sep b)
    | cons cur parts => simp
  | cons c a' ih =>
    have hc : ¬ c = sep := fun hh => h (by rw [hh]; exact List.mem_cons_self _ _)
    have ha' : sep ∉ a' := fun hm => h (List.mem_cons_of_mem _ hm)
    simp only [List.cons_append, splitOnChar, List.append_eq]
    rw [ih ha']
    simp [hc]

/-! ### `pyInt` inverts the renderings the formatter produces -/

theorem digitsToNat_cons_zero (l : List Char) : digitsToNat ('0' :: l) = digitsToNat l := rfl

theorem pyIntDigits_pos {l : List Char} (hne : l ≠ []) (hall : l.all isDigitChar = true) :
    pyIntDigits l = some ((digitsToNat l : Int)) := by
  unfold pyIntDigits
  rw [if_pos ⟨hne, hall⟩]

theorem pyInt_all_digits {l : List Char} (hne : l ≠ []) (hall : l.all isDigitChar = true) :
    pyInt l = some ((digitsToNat l : Int)) := by
  cases l with
  | nil => exact absurd rfl hne
  | cons c rest =>
    have hc : isDigitChar c = true := List.all_eq_true.1 hall c (List.mem_cons_self _ _)
    have hcm : ¬ c = '-' := by
      intro hh
      rw [hh] at hc
      exact Bool.noConfusion ((by decide : isDigitChar '-' = false) ▸ hc)
    have hcp : ¬ c = '+' := by
      intro hh
      rw [hh] at hc
      exact Bool.noConfusion ((by decide : isDigitChar '+' = false) ▸ hc)
    simp only [pyInt, if_neg hcm, if_neg hcp]
    exact pyIntDigits_pos (List.cons_ne_nil c rest) hall

theorem pyInt_padInt2 (k : Int) : pyInt (padInt2 k) = some k := by
  unfold padInt2
  by_cases h : k < 0
  · rw [if_pos h]
    obtain ⟨hall, hne, hval⟩ := natToDigits_spec (-k).toNat
    have h1 : pyInt ('-' :: natToDigits (-k).toNat)
        = (pyIntDigits (natToDigits (-k).toNat)).map (fun n => -n) := by
      simp [pyInt]
    rw [h1, pyIntDigits_pos hne hall, Option.map_some', hval,
        Int.toNat_of_nonneg (by omega : (0 : Int) ≤ -k), neg_neg]
  · rw [if_neg h]
    by_cases h2 : k < 10
    · rw [if_pos h2]
      obtain ⟨hall, hne, hval⟩ := natToDigits_spec k.toNat
      have hall0 : ('0' :: natToDigits k.toNat).all isDigitChar = true := by
        rw [List.all_cons, hall]
        rfl
      rw [pyInt_all_digits (List.cons_ne_nil _ _) hall0, digitsToNat_cons_zero, hval,
          Int.toNat_of_nonneg (by omega : (0 : Int) ≤ k)]
    · rw [if_neg h2]
      obtain ⟨hall, hne, hval⟩ := natToDigits_spec k.toNat
      rw [pyInt_all_digits hne hall, hval,
          Int.toNat_of_nonneg (by omega : (0 : Int) ≤ k)]

theorem padInt2_nonneg {k : Int} (h : 0 ≤ k) : padInt2 k = twoPadNat k.toNat := by
  unfold padInt2 twoPadNat
  rw [if_neg (by omega)]
  by_cases h2 : k < 10
  · rw [if_pos h2, if_pos (by omega)]
  · rw [if_neg h2, if_neg (by omega)]

theorem pyInt_twoPadNat (n : Nat) : pyInt (twoPadNat n) = some n := by
  have h := pyInt_padInt2 (n : Int)
  rw [padInt2_nonneg (Int.natCast_nonneg n), Int.toNat_natCast] at h
  exact h

/-! ### The codec theorems -/

theorem splitOnChar_formatTimedelta (ts : Int) :
    splitOnChar ':' (formatTimedelta ts)
      = [padInt2 (Int.fdiv ts 3600), padInt2 (Int.fdiv (Int.fmod ts 3600) 60)] := by
  show splitOnChar ':' (padInt2 _ ++ ':' :: padInt2 _) = _
  rw [splitOnChar_append _ (colon_not_mem_padInt2 _),
      splitOnChar_not_mem (colon_not_mem_padInt2 _)]

theorem parseTimeString_formatTimedelta (ts : Int) (_h0 : 0 ≤ ts) (h60 : ts % 60 = 0) :
    parseTimeString (formatTimedelta ts) = ts := by
  simp only [parseTimeString, splitOnChar_formatTimedelta, pyInt_padInt2]
  rw [Int.fmod_eq_emod _ (by norm_num), Int.fdiv_eq_ediv _ (by norm_num),
      Int.fdiv_eq_ediv _ (by norm_num)]
  omega

theorem padInt2_nonneg_eq {k : Int} (h : 0 ≤ k) : padInt2 k = twoPadNat k.toNat := by
  unfold padInt2 twoPadNat
  rw [if_neg (by omega : ¬ k < 0)]
  by_cases h2 : k < 10
  · rw [if_pos h2, if_pos (by omega)]
  · rw [if_neg h2, if_neg (by omega)]

theorem formatTimedelta_nonneg (ts : Int) (h : 0 ≤ ts) :
    formatTimedelta ts = claimFormatNonneg ts.toNat := by
  have hH : Int.fdiv ts 3600 = ((ts.toNat / 3600 : Nat) : Int) := by
    rw [Int.fdiv_eq_ediv _ (by norm_num)]
    omega
  have hM : Int.fdiv (Int.fmod ts 3600) 60 = ((ts.toNat % 3600 / 60 : Nat) : Int) := by
    rw [Int.fmod_eq_emod _ (by norm_num), Int.fdiv_eq_ediv _ (by norm_num)]
    omega
  show padInt2 (Int.fdiv ts 3600) ++ ':' :: padInt2 (Int.fdiv (Int.fmod ts 3600) 60)
      = claimFormatNonneg ts.toNat
  rw [hH, hM, padInt2_nonneg_eq (Int.natCast_nonneg _), padInt2_nonneg_eq (Int.natCast_nonneg _),
      Int.toNat_natCast, Int.toNat_natCast]
  rfl

/-! ### Monthly totals -/

theorem calculateMonthlyTotals_foldl (l : MonthData) :
    ∀ a b : Int,
      l.foldl (fun acc day_data =>
          (acc.1 + parseTimeString day_data.2.worked_hours,
           acc.2 + parseTimeString day_data.2.extra_hours)) (a, b)
        = (a + (l.map (fun q => parseTimeString q.2.worked_hours)).sum,
           b + (l.map (fun q => parseTimeString q.2.extra_hours)).sum) := by
  induction l with
  | nil => intro a b; simp
  | cons q l ih =>
    intro a b
    simp only [List.foldl_cons, List.map_cons, List.sum_cons, ih]
    rw [Prod.mk.injEq]
    constructor <;> ring

theorem calculateMonthlyTotals_eq_sums (month_data : MonthData) :
    calculateMonthlyTotals month_data
      = ((month_data.map (fun q => parseTimeString q.2.worked_hours)).sum,
         (month_data.map (fun q => parseTimeString q.2.extra_hours)).sum) := by
  unfold calculateMonthlyTotals
  rw [calculateMonthlyTotals_foldl]
  simp

theorem parseTimeString_fallback (s : List Char) :
    parseTimeString s = 0 ∨
      ∃ hs ms hv mv, splitOnChar ':' s = [hs, ms] ∧ pyInt hs = some hv ∧
        pyInt ms = some mv ∧ parseTimeString s = hv * 3600 + mv * 60 := by
  cases hsp : splitOnChar ':' s with
  | nil => left; unfold parseTimeString; rw [hsp]
  | cons a t =>
    cases t with
    | nil => left; unfold parseTimeString; rw [hsp]
    | cons b t2 =>
      cases t2 with
      | cons c t3 => left; unfold parseTimeString; rw [hsp]
      | nil =>
        have he : parseTimeString s
            = (match pyInt a, pyInt b with
               | some hours, some minutes => hours * 3600 + minutes * 60
               | _, _ => 0) := by
          unfold parseTimeString
          rw [hsp]
        cases ha : pyInt a with
        | none => left; rw [he, ha]
        | some va =>
          cases hb : pyInt b with
          | none => left; rw [he, ha, hb]
          | some vb =>
            right
            exact ⟨a, b, va, vb, rfl, ha, hb, by rw [he, ha, hb]⟩

/-! ### Valid dates stay filed under their own month -/

theorem storeEntriesOK_add {wd : WorkData} (hok : storeEntriesOK wd) {d : Date}
    (hd : validDate d) (w e : List Char) :
    storeEntriesOK (addCurrentDayData wd d w e) := by
  unfold addCurrentDayData
  intro p hp q hq
  rcases mem_dictInsert hp with hh | hh
  · subst hh
    simp only at hq
    rcases mem_dictInsert hq with hq' | hq'
    · subst hq'
      exact ⟨hd, rfl⟩
    · rcases hfind : dictFind wd (monthKeyOf d) with _ | md
      · rw [hfind] at hq'
        simp at hq'
      · rw [hfind] at hq'
        exact hok _ (dictFind_mem hfind) q hq'
  · exact hok p hh q hq

theorem storeEntriesOK_foldl (l : List DataRow) :
    ∀ wd : WorkData, (∀ r ∈ l, validDate r.1) → storeEntriesOK wd →
      storeEntriesOK (l.foldl (fun wd r => addCurrentDayData wd r.1 r.2.1 r.2.2) wd) := by
  induction l with
  | nil => intro wd _ h; exact h
  | cons r l ih =>
    intro wd hl h
    exact ih _ (fun x hx => hl x (List.mem_cons_of_mem _ hx))
      (storeEntriesOK_add h (hl r (List.mem_cons_self _ _)) _ _)

theorem storeEntriesOK_nil : storeEntriesOK [] := by
  intro p hp
  simp at hp

theorem storeEntriesOK_convert {rows : List DataRow} (h : ∀ r ∈ rows, validDate r.1) :
    storeEntriesOK (convertDataframeToWorkData rows) := by
  rw [convert_eq_foldl]
  exact storeEntriesOK_foldl rows [] h storeEntriesOK_nil

theorem storeEntriesOK_load {f : ExcelFile}
    (h1 : ∀ rows, f.dataSheet = some rows → ∀ r ∈ rows, validDate r.1)
    (h2 : ∀ rows, f.legacySheet = some rows → ∀ r ∈ rows, validDate r.1) :
    storeEntriesOK (loadExistingData f) := by
  unfold loadExistingData
  by_cases hex : f.fileExists = false
  · rw [if_pos hex]
    exact storeEntriesOK_nil
  · rw [if_neg hex]
    rcases hds : f.dataSheet with _ | rows
    · rcases hls : f.legacySheet with _ | rows
      · exact storeEntriesOK_nil
      · exact storeEntriesOK_convert (h2 rows hls)
    · exact storeEntriesOK_convert (h1 rows hds)

/-! ### Month-key ordering -/

theorem monthKeyLe_trans : ∀ a b c : MonthKey,
    monthKeyLe a b = true → monthKeyLe b c = true → monthKeyLe a c = true := by
  intro a b c hab hbc
  simp only [monthKeyLe, decide_eq_true_eq] at hab hbc ⊢
  omega

theorem monthKeyLe_total : ∀ a b : MonthKey,
    (monthKeyLe a b || monthKeyLe b a) = true := by
  intro a b
  simp only [monthKeyLe, Bool.or_eq_true, decide_eq_true_eq]
  omega

theorem sortedMonthKeys_sorted (wd : WorkData) :
    (sortedMonthKeys wd).Pairwise (fun a b => monthKeyLe a b = true) :=
  List.sorted_mergeSort monthKeyLe_trans monthKeyLe_total _

theorem sortedMonthKeys_perm (wd : WorkData) :
    (sortedMonthKeys wd).Perm (wd.map Prod.fst) :=
  List.mergeSort_perm _ _

/-! ### The claims -/

/-- C1: the spec claims each day slot occupies 3 stacked rows with the totals
row below the last week, so no two renderer value writes hit the same cell.
The code advances only one row per week (`row = 4 + week_number`) while writing
sub-lines at `row+1`/`row+2`: for January 2025 with a record on 2025-01-01, the
worked sub-line of day 1 and the day number of day 8 both target row 5,
column 3, so the write targets are not pairwise distinct. -/
theorem claim1_overlapping_writes :
    ((calendarValueWrites 2025 1
        [(⟨2025, 1, 1⟩, ⟨chars ("08:00"), chars ("00:00")⟩)]).count (5, 3) = 2) ∧
    ¬ (calendarValueWrites 2025 1
        [(⟨2025, 1, 1⟩, ⟨chars ("08:00"), chars ("00:00")⟩)]).Nodup :=
  ⟨by decide, by decide⟩

/-- C2: round-trip.  For any prior file `D`, any date `d` not present in the
loaded store, and any texts `w`, `e`: flattening `merge(load(D), d, w, e)`,
writing the result as the `Data` sheet, and re-loading yields a store whose
flattened form contains the row `(d, w, e)` exactly once, unchanged. -/
theorem claim2_round_trip (D : ExcelFile) (d : Date) (w e : List Char)
    (leg : Option (List DataRow))
    (_hnew : ∀ p ∈ loadExistingData D, ∀ q ∈ p.2, q.1 ≠ d) :
    (flattenWorkData (loadExistingData
        ⟨true, some (flattenWorkData (addCurrentDayData (loadExistingData D) d w e)),
         leg⟩)).filter (fun r => decide (r.1 = d)) = [(d, w, e)] := by
  have hwf : storeWF (loadExistingData D) := storeWF_load D
  have hwfadd := storeWF_add hwf d w e
  have h1 : (flattenWorkData (addCurrentDayData (loadExistingData D) d w e)).filter
      (fun r => decide (r.1 = d)) = [(d, w, e)] := by
    rw [flatten_filter hwfadd d, lookupDate_add_self]
  have hload : loadExistingData
      ⟨true, some (flattenWorkData (addCurrentDayData (loadExistingData D) d w e)), leg⟩
      = convertDataframeToWorkData
          (flattenWorkData (addCurrentDayData (loadExistingData D) d w e)) := rfl
  rw [hload]
  have hfind := reverse_find_of_filter_singleton h1
  have h2 : lookupDate (convertDataframeToWorkData
      (flattenWorkData (addCurrentDayData (loadExistingData D) d w e))) d
      = some ⟨w, e⟩ := by
    rw [convert_eq_foldl, lookupDate_foldl, hfind]
  rw [flatten_filter (storeWF_convert _) d, h2]

/-- C2 witness: a concrete prior file with one January day, merging a new
January date, flattening, re-loading, and flattening again keeps the new row
exactly once. -/
theorem claim2_round_trip_witness :
    (∀ p ∈ loadExistingData
        ⟨true, some [(⟨2025, 1, 10⟩, chars ("08:00"), chars ("00:00"))], none⟩,
      ∀ q ∈ p.2, q.1 ≠ (⟨2025, 1, 20⟩ : Date)) ∧
    (flattenWorkData (loadExistingData
        ⟨true, some (flattenWorkData (addCurrentDayData
          (loadExistingData
            ⟨true, some [(⟨2025, 1, 10⟩, chars ("08:00"), chars ("00:00"))], none⟩)
          ⟨2025, 1, 20⟩ (chars ("07:45")) (chars ("-0:15")))), none⟩)).filter
      (fun r => decide (r.1 = (⟨2025, 1, 20⟩ : Date)))
      = [(⟨2025, 1, 20⟩, chars ("07:45"), chars ("-0:15"))] :=
  ⟨by decide, claim2_round_trip _ _ _ _ _ (by decide)⟩

/-- C3: merge sets the entry for `d` in `d`'s month bucket to the new pair,
replacing any prior record; every other date's entry in every bucket is
unchanged; the flattened output contains exactly one row for `d`; and merging
the same values twice equals merging them once. -/
theorem claim3_merge_semantics (s : WorkData) (d : Date) (w e : List Char)
    (hwf : storeWF s) :
    lookupDate (addCurrentDayData s d w e) d = some ⟨w, e⟩ ∧
    (∀ d' : Date, d' ≠ d →
      lookupDate (addCurrentDayData s d w e) d' = lookupDate s d') ∧
    (∀ mk : MonthKey, mk ≠ monthKeyOf d →
      dictFind (addCurrentDayData s d w e) mk = dictFind s mk) ∧
    (flattenWorkData (addCurrentDayData s d w e)).filter (fun r => decide (r.1 = d))
      = [(d, w, e)] ∧
    addCurrentDayData (addCurrentDayData s d w e) d w e = addCurrentDayData s d w e := by
  refine ⟨lookupDate_add_self s d w e,
          fun d' h => lookupDate_add_ne s d d' w e h,
          fun mk h => dictFind_add_ne_month s d w e mk h,
          ?_, add_idempotent s d w e⟩
  rw [flatten_filter (storeWF_add hwf d w e) d, lookupDate_add_self]

/-- C3 witness: the merge semantics at the empty store and a concrete day. -/
theorem claim3_merge_semantics_witness :
    storeWF ([] : WorkData) ∧
    (lookupDate (addCurrentDayData [] ⟨2025, 1, 15⟩ (chars ("08:30")) (chars ("00:30")))
        ⟨2025, 1, 15⟩ = some ⟨chars ("08:30"), chars ("00:30")⟩ ∧
     (∀ d' : Date, d' ≠ ⟨2025, 1, 15⟩ →
       lookupDate (addCurrentDayData [] ⟨2025, 1, 15⟩ (chars ("08:30")) (chars ("00:30"))) d'
         = lookupDate [] d') ∧
     (∀ mk : MonthKey, mk ≠ monthKeyOf ⟨2025, 1, 15⟩ →
       dictFind (addCurrentDayData [] ⟨2025, 1, 15⟩ (chars ("08:30")) (chars ("00:30"))) mk
         = dictFind [] mk) ∧
     (flattenWorkData (addCurrentDayData [] ⟨2025, 1, 15⟩ (chars ("08:30"))
         (chars ("00:30")))).filter (fun r => decide (r.1 = (⟨2025, 1, 15⟩ : Date)))
       = [(⟨2025, 1, 15⟩, chars ("08:30"), chars ("00:30"))] ∧
     addCurrentDayData (addCurrentDayData [] ⟨2025, 1, 15⟩ (chars ("08:30"))
         (chars ("00:30"))) ⟨2025, 1, 15⟩ (chars ("08:30")) (chars ("00:30"))
       = addCurrentDayData [] ⟨2025, 1, 15⟩ (chars ("08:30")) (chars ("00:30"))) :=
  ⟨storeWF_nil, claim3_merge_semantics [] ⟨2025, 1, 15⟩ (chars ("08:30")) (chars ("00:30"))
    storeWF_nil⟩

/-- C4: load never fails: a missing file yields the empty store; a readable
`Data` sheet yields the store converted from it; on its failure a readable
legacy table yields the store converted from that; and when both fail the
store is empty. -/
theorem claim4_load_fallback (f : ExcelFile) :
    (f.fileExists = false → loadExistingData f = []) ∧
    (∀ rows, f.fileExists = true → f.dataSheet = some rows →
      loadExistingData f = convertDataframeToWorkData rows) ∧
    (∀ rows, f.fileExists = true → f.dataSheet = none → f.legacySheet = some rows →
      loadExistingData f = convertDataframeToWorkData rows) ∧
    (f.fileExists = true → f.dataSheet = none → f.legacySheet = none →
      loadExistingData f = []) := by
  refine ⟨?_, ?_, ?_, ?_⟩
  · intro h
    unfold loadExistingData
    rw [if_pos h]
  · intro rows h1 h2
    unfold loadExistingData
    rw [h1, if_neg (by decide : ¬ (true = false)), h2]
  · intro rows h1 h2 h3
    unfold loadExistingData
    rw [h1, if_neg (by decide : ¬ (true = false)), h2, h3]
  · intro h1 h2 h3
    unfold loadExistingData
    rw [h1, if_neg (by decide : ¬ (true = false)), h2, h3]

/-- C4 witness: the Data-sheet branch at a concrete one-row file. -/
theorem claim4_load_fallback_witness :
    loadExistingData
        ⟨true, some [(⟨2025, 1, 10⟩, chars ("08:00"), chars ("00:00"))], none⟩
      = convertDataframeToWorkData [(⟨2025, 1, 10⟩, chars ("08:00"), chars ("00:00"))] :=
  (claim4_load_fallback _).2.1 _ rfl rfl

/-- C5: the assembled document is exactly one sheet per month key, in
ascending sorted month-key order, named through `sheetName`, followed by one
`Data` sheet, with no extra blank sheet. -/
theorem claim5_sheet_order (wd : WorkData) (hnd : (wd.map Prod.fst).Nodup) :
    ∃ ks : List MonthKey,
      ks.Perm (wd.map Prod.fst) ∧
      ks.Pairwise (fun a b => monthKeyLe a b = true) ∧
      ks.Nodup ∧
      createWorkbookSheetNames wd = ks.map sheetName ∧
      assembleSheetNames wd = ks.map sheetName ++ ["Data"] :=
  ⟨sortedMonthKeys wd, sortedMonthKeys_perm wd, sortedMonthKeys_sorted wd,
    (sortedMonthKeys_perm wd).symm.nodup hnd, rfl, rfl⟩

/-- C5 witness: three months merged out of order still assemble
chronologically, with the Data sheet last. -/
theorem claim5_sheet_order_witness :
    (([((2025, 3), ([] : MonthData)), ((2024, 12), []), ((2025, 1), [])].map
        Prod.fst).Nodup) ∧
    (∃ ks : List MonthKey,
      ks.Perm ([((2025, 3), ([] : MonthData)), ((2024, 12), []), ((2025, 1), [])].map
        Prod.fst) ∧
      ks.Pairwise (fun a b => monthKeyLe a b = true) ∧
      ks.Nodup ∧
      createWorkbookSheetNames
          [((2025, 3), ([] : MonthData)), ((2024, 12), []), ((2025, 1), [])]
        = ks.map sheetName ∧
      assembleSheetNames
          [((2025, 3), ([] : MonthData)), ((2024, 12), []), ((2025, 1), [])]
        = ks.map sheetName ++ ["Data"]) :=
  ⟨by decide, claim5_sheet_order _ (by decide)⟩

/-- C6 counterexample: the claim says the HH component is the total whole
hours truncated toward zero, zero-padded to 2 digits, for every duration.  At
the duration -900 seconds (extra hours of -15 minutes) truncation toward zero
gives 0 hours, whose zero-padded rendering is `00`, but the code floor-divides
and renders `-1:45`. -/
theorem claim6_counterexample :
    formatTimedelta (-900) = chars ("-1:45") ∧
    Int.tdiv (-900) 3600 = 0 ∧
    (formatTimedelta (-900)).take 2 ≠ chars ("00") :=
  ⟨by decide, by decide, by decide⟩

/-- C6 amended: restricted to nonnegative durations, the format is exactly the
claim's reading: HH the whole hours truncated toward zero from the total
seconds, MM the remainder minutes, both zero-padded to 2 digits
(`claimFormatNonneg`, written from the spec's words). -/
theorem claim6_format_nonneg (ts : Int) (h : 0 ≤ ts) :
    formatTimedelta ts = claimFormatNonneg ts.toNat :=
  formatTimedelta_nonneg ts h

/-- C6 amended witness: the format agrees with the spec-side definition at
8 hours 30 minutes. -/
theorem claim6_format_nonneg_witness :
    (0 : Int) ≤ 30600 ∧ formatTimedelta 30600 = claimFormatNonneg ((30600 : Int)).toNat :=
  ⟨by decide, claim6_format_nonneg 30600 (by decide)⟩

/-- C7: codec inverse: for every duration expressible as nonnegative whole
hours and minutes (total seconds divisible by 60), parsing the formatted text
returns the duration. -/
theorem claim7_codec_inverse (ts : Int) (h0 : 0 ≤ ts) (h60 : ts % 60 = 0) :
    parseTimeString (formatTimedelta ts) = ts :=
  parseTimeString_formatTimedelta ts h0 h60

/-- C7 witness: the codec inverse at 8 hours 30 minutes. -/
theorem claim7_codec_inverse_witness :
    (0 : Int) ≤ 30600 ∧ (30600 : Int) % 60 = 0 ∧
    parseTimeString (formatTimedelta 30600) = 30600 :=
  ⟨by decide, by decide, claim7_codec_inverse 30600 (by decide) (by decide)⟩

/-- C8: the monthly totals are the sums over all records of the parsed worked
and extra texts, and any text outside the two-integer-fields form parses to
the zero duration. -/
theorem claim8_monthly_totals (month_data : MonthData) :
    calculateMonthlyTotals month_data
      = ((month_data.map (fun q => parseTimeString q.2.worked_hours)).sum,
         (month_data.map (fun q => parseTimeString q.2.extra_hours)).sum) ∧
    ∀ s : List Char,
      parseTimeString s = 0 ∨
        ∃ hs ms hv mv, splitOnChar ':' s = [hs, ms] ∧ pyInt hs = some hv ∧
          pyInt ms = some mv ∧ parseTimeString s = hv * 3600 + mv * 60 :=
  ⟨calculateMonthlyTotals_eq_sums month_data, parseTimeString_fallback⟩

/-- C9: every store produced by load, and the store after merging one valid
day, files only valid calendar dates, each under its own month key. -/
theorem claim9_store_invariant (f : ExcelFile) (d : Date) (w e : List Char)
    (h1 : ∀ rows, f.dataSheet = some rows → ∀ r ∈ rows, validDate r.1)
    (h2 : ∀ rows, f.legacySheet = some rows → ∀ r ∈ rows, validDate r.1)
    (hd : validDate d) :
    storeEntriesOK (loadExistingData f) ∧
    storeEntriesOK (addCurrentDayData (loadExistingData f) d w e) :=
  ⟨storeEntriesOK_load h1 h2,
   storeEntriesOK_add (storeEntriesOK_load h1 h2) hd w e⟩

/-- C9 witness: the invariant for a concrete one-row file and one merged day. -/
theorem claim9_store_invariant_witness :
    validDate ⟨2025, 1, 20⟩ ∧
    (storeEntriesOK (loadExistingData
        ⟨true, some [(⟨2025, 1, 10⟩, chars ("08:00"), chars ("00:00"))], none⟩) ∧
     storeEntriesOK (addCurrentDayData
        (loadExistingData
          ⟨true, some [(⟨2025, 1, 10⟩, chars ("08:00"), chars ("00:00"))], none⟩)
        ⟨2025, 1, 20⟩ (chars ("07:45")) (chars ("-0:15")))) :=
  ⟨by decide,
   claim9_store_invariant _ _ _ _
     (fun rows h => by cases Option.some.inj h; decide)
     (fun rows h => Option.noConfusion h)
     (by decide)⟩

/-- C10: a stored extra text of the form `-00:MM` (1 ≤ MM ≤ 59) parses to a
positive duration of MM minutes — the minus sign attaches to the zero hours
field and is lost — so such a record increases the monthly extra total. -/
theorem claim10_negative_extra_sign_lost (mm : Nat) (h1 : 1 ≤ mm) (_h2 : mm ≤ 59)
    (dt : Date) (w : List Char) (md : MonthData) :
    parseTimeString (chars ("-00:") ++ twoPadNat mm) = 60 * mm ∧
    (0 : Int) < 60 * mm ∧
    (calculateMonthlyTotals (md ++ [(dt, ⟨w, chars ("-00:") ++ twoPadNat mm⟩)])).2
      = (calculateMonthlyTotals md).2 + 60 * mm := by
  have hsp : splitOnChar ':' (chars ("-00:") ++ twoPadNat mm)
      = [chars ("-00"), twoPadNat mm] := by
    have hsplit0 : chars ("-00:") ++ twoPadNat mm
        = chars ("-00") ++ ':' :: twoPadNat mm := rfl
    rw [hsplit0, splitOnChar_append _ (by decide),
        splitOnChar_not_mem (colon_not_mem_twoPadNat mm)]
  have hparse : parseTimeString (chars ("-00:") ++ twoPadNat mm) = 60 * mm := by
    have he : parseTimeString (chars ("-00:") ++ twoPadNat mm)
        = (match pyInt (chars ("-00")), pyInt (twoPadNat mm) with
           | some hours, some minutes => hours * 3600 + minutes * 60
           | _, _ => 0) := by
      unfold parseTimeString
      rw [hsp]
    rw [he, (by decide : pyInt (chars ("-00")) = some 0), pyInt_twoPadNat]
    show (0 : Int) * 3600 + (mm : Int) * 60 = 60 * (mm : Int)
    ring
  refine ⟨hparse, by omega, ?_⟩
  have hstep : calculateMonthlyTotals (md ++ [(dt, ⟨w, chars ("-00:") ++ twoPadNat mm⟩)])
      = ((calculateMonthlyTotals md).1 + parseTimeString w,
         (calculateMonthlyTotals md).2
           + parseTimeString (chars ("-00:") ++ twoPadNat mm)) := by
    unfold calculateMonthlyTotals
    rw [List.foldl_append]
    rfl
  rw [hstep, hparse]

/-- C10 witness: `-00:15` parses to +15 minutes and raises the extra total. -/
theorem claim10_negative_extra_sign_lost_witness :
    1 ≤ 15 ∧ (15 : Nat) ≤ 59 ∧
    (parseTimeString (chars ("-00:") ++ twoPadNat 15) = 60 * (15 : Nat) ∧
     (0 : Int) < 60 * (15 : Nat) ∧
     (calculateMonthlyTotals ([] ++ [(⟨2025, 1, 20⟩,
         ⟨chars ("07:45"), chars ("-00:") ++ twoPadNat 15⟩)])).2
       = (calculateMonthlyTotals []).2 + 60 * (15 : Nat)) :=
  ⟨by decide, by decide,
   claim10_negative_extra_sign_lost 15 (by decide) (by decide) ⟨2025, 1, 20⟩
     (chars ("07:45")) []⟩
